import Mathlib

/-!
Verification of the Chooser touch-selection state machine.

The definitions below are a shallow embedding of the JavaScript sources:
`src/app.js` (the full four-mode variant, the authority for the standard
classic / elimination / scheich machine and for family mode) and the
Scheich placement-order selection policy of the second source variant
(`src/unnamed/part_000`), embedded under the `Variant0` namespace.

Modelling conventions:
- JS touch identifiers are natural numbers; `Object.keys(touches)` is
  modelled as the key list of an insertion-ordered association list.
- `winnerId` is `Option Nat` (`none` models JS `null`).
- `eliminatedIds` is a JS `Set` that may contain `null` (the code calls
  `eliminatedIds.add(winnerId)` even when `winnerId` is `null`), so it is
  modelled as a duplicate-free `List (Option Nat)`.
- `Math.floor(Math.random() * n)` always produces an integer in `[0, n)`
  when `n > 0` (and `eligible[...]` is `undefined` when the list is
  empty); the draw is modelled as an index `r : Nat` with the selection
  written `list.get? r`, and theorems that depend on the draw being in
  range carry `r < length` as a hypothesis.
- `setTimeout` callbacks are modelled as explicit state-transition
  functions (`stabilityFire`, `elimFire`); a scheduled-but-not-yet-fired
  timer is a `Bool` flag in the state.  `clearTimeout(stabilityTimer)`
  clears the stability flag; the 2000 ms elimination display timeout in
  `selectWinner` is anonymous in the source (its handle is never stored),
  so nothing in the model (faithfully) can clear `elimPending`.
- `countdownProgress` is a float in `[0,1]` in the source, always of the
  form `min((ts - start) / COUNTDOWN_DURATION, 1)`; it is stored here as
  the scaled numerator `min (ts - start) COUNTDOWN_DURATION : Nat`, so
  `progress >= 1` is `COUNTDOWN_DURATION ≤ ts - start`.
- `x < window.innerWidth / 2` over the reals is written `2 * x < W` over
  the integers (exact for all integer inputs).
- `Math.sqrt(dx*dx + dy*dy) < 50` over the reals is written
  `dx^2 + dy^2 < 2500` over the integers (exact, both sides nonnegative).
- In the second variant's scheich policy, numbers and strings meet under
  JS strict equality; there the values are embedded as a sum type
  `Variant0.JSVal` (number | string) so that the comparison semantics is
  modelled rather than erased.
-/

namespace Chooser

/-- Game modes: `currentMode` ∈ {'classic', 'elimination', 'scheich', 'family'}. -/
inductive Mode where
  | classic
  | elimination
  | scheich
  | family
deriving DecidableEq, Repr

/-- Standard-machine states: 'waiting' → 'stabilizing' → 'countdown' → 'chosen'. -/
inductive Phase where
  | waiting
  | stabilizing
  | countdown
  | chosen
deriving DecidableEq, Repr

/-- One tracked touch point: `{ x, y, pulse, placedAt }` (the render-only
`pulse` / `radius` / `opacity` fields are omitted). -/
structure Touch where
  x : Int
  y : Int
  placedAt : Nat
deriving DecidableEq, Repr

/-- The `touches` object: identifier → touch data, insertion ordered. -/
abbrev TouchMap := List (Nat × Touch)

/-- `touches[i]` — JS property lookup (`undefined` ↦ `none`). -/
def lookupTouch (ts : TouchMap) (i : Nat) : Option Touch :=
  (ts.find? (fun p => p.1 = i)).map Prod.snd

/-- `Object.keys(touches)`. -/
def touchKeys (ts : TouchMap) : List Nat :=
  ts.map Prod.fst

/-- `newTouches[i] = t` — JS property assignment: overwrite if the key is
present, append otherwise. -/
def setTouch (ts : TouchMap) (i : Nat) (t : Touch) : TouchMap :=
  if (lookupTouch ts i).isSome then
    ts.map (fun p => if p.1 = i then (i, t) else p)
  else
    ts ++ [(i, t)]

/-- `eliminatedIds.add(w)` — JS `Set.add` (no duplicates, may add `null`). -/
def elimAdd (elim : List (Option Nat)) (w : Option Nat) : List (Option Nat) :=
  if w ∈ elim then elim else elim ++ [w]

def MAX_TOUCHES : Nat := 5
def COUNTDOWN_DURATION : Nat := 2500
def STABILITY_DURATION : Nat := 1000

/-- `Object.keys(touches).filter(id => !eliminatedIds.has(id))` — the live
eligible (non-eliminated) id list, recomputed from the registry. -/
def activeIds (ts : TouchMap) (elim : List (Option Nat)) : List Nat :=
  (touchKeys ts).filter (fun i => decide (some i ∉ elim))

/-- The whole mutable module state of `app.js`'s standard machine
(`touches`, `eliminatedIds`, `touchOrder`, `state`, timers, countdown and
winner variables), plus the ambient `window.innerWidth` / `innerHeight`
read by the scheich safe-zone test. -/
structure AppState where
  mode : Mode
  winW : Int
  winH : Int
  touches : TouchMap
  eliminated : List (Option Nat)
  touchOrder : List Nat
  phase : Phase
  /-- a scheduled, not-yet-fired `stabilityTimer` (its handle is stored,
  so `clearTimeout` can clear it). -/
  stabilityPending : Bool
  /-- a scheduled, not-yet-fired 2000 ms elimination display timeout; the
  source never stores its handle, so no operation clears this flag. -/
  elimPending : Bool
  countdownStart : Option Nat
  countdownProgress : Nat
  winnerId : Option Nat
  maxWarning : Bool
deriving DecidableEq, Repr

/-- `function resetStability()` — `clearTimeout(stabilityTimer)`. -/
def resetStability (s : AppState) : AppState :=
  { s with stabilityPending := false }

/-- `function startStabilityTimer()` — sets `state = 'stabilizing'` and
schedules a `STABILITY_DURATION` single-shot timeout (its callback is
`stabilityFire` below).  Note: the source does not clear an already
pending stability timer here. -/
def startStabilityTimer (s : AppState) : AppState :=
  { s with phase := Phase.stabilizing, stabilityPending := true }

/-- `function startCountdown()` — `performance.now()` is the `now` argument. -/
def startCountdown (s : AppState) (now : Nat) : AppState :=
  { s with phase := Phase.countdown, countdownStart := some now, countdownProgress := 0 }

/-- The body of the `setTimeout` scheduled by `startStabilityTimer`:
`const active = Object.keys(touches).filter(id => !eliminatedIds.has(id));
if (active.length >= 2) startCountdown();`.  Firing consumes the pending
timer; no signature captured at scheduling time exists in the source, and
nothing is compared or re-scheduled. -/
def stabilityFire (s : AppState) (now : Nat) : AppState :=
  let s1 := resetStability s
  if 2 ≤ (activeIds s1.touches s1.eliminated).length then startCountdown s1 now else s1

/-- `isInScheichSafeZone(x, y)` -- `x < window.innerWidth / 2 && y < window.innerHeight / 2`. -/
def isInScheichSafeZone (w h x y : Int) : Bool :=
  decide (2 * x < w) && decide (2 * y < h)

/-- The `outsideSafeZone` list of `selectWinner`'s scheich branch:
`eligible.filter(id => !isInScheichSafeZone(touches[id].x, touches[id].y))`.
(`touches[id]` is always defined for `id ∈ Object.keys(touches)`; the
`none` arm is unreachable there.) -/
def scheichOutside (w h : Int) (ts : TouchMap) (elim : List (Option Nat)) : List Nat :=
  (activeIds ts elim).filter (fun i =>
    match lookupTouch ts i with
    | some t => !(isInScheichSafeZone w h t.x t.y)
    | none => false)

/-- `const pool = outsideSafeZone.length > 0 ? outsideSafeZone : eligible;`. -/
def scheichPool (w h : Int) (ts : TouchMap) (elim : List (Option Nat)) : List Nat :=
  if 0 < (scheichOutside w h ts elim).length then scheichOutside w h ts elim
  else activeIds ts elim

/-- `function selectWinner()` of `app.js` — the random draw
`Math.floor(Math.random() * pool.length)` is the index argument `r`
(always `< pool.length` when the pool is non-empty; an out-of-range index
makes `pool[...]` the JS `undefined`, i.e. `none`).  In elimination mode
it additionally schedules the anonymous 2000 ms display timeout (whose
callback is `elimFire` below). -/
def selectWinner (s : AppState) (r : Nat) : AppState :=
  let winner :=
    if s.mode = Mode.scheich then (scheichPool s.winW s.winH s.touches s.eliminated).get? r
    else (activeIds s.touches s.eliminated).get? r
  let s1 := { s with winnerId := winner, phase := Phase.chosen }
  if s1.mode = Mode.elimination then { s1 with elimPending := true } else s1

/-- `function resetAll()` — clears the stability timer, the countdown and
winner state, and empties the registry.  The anonymous elimination display
timeout has no stored handle, so the source cannot (and does not) cancel
it: `elimPending` is left as is. -/
def resetAll (s : AppState) : AppState :=
  { s with
    touches := [], eliminated := [], touchOrder := [],
    phase := Phase.waiting, stabilityPending := false,
    countdownStart := none, countdownProgress := 0, winnerId := none }

/-- The body of the 2000 ms `setTimeout` in `selectWinner`'s elimination
branch: add the shown winner to `eliminatedIds`, then branch on how many
non-eliminated touches remain. -/
def elimFire (s : AppState) : AppState :=
  let s1 := { s with elimPending := false, eliminated := elimAdd s.eliminated s.winnerId }
  let remaining := activeIds s1.touches s1.eliminated
  if remaining.length = 1 then
    { s1 with winnerId := remaining.head?, phase := Phase.chosen }
  else if 2 ≤ remaining.length then
    startStabilityTimer { s1 with winnerId := none, phase := Phase.waiting }
  else
    resetAll s1

/-- `function resetCountdown()`. -/
def resetCountdown (s : AppState) : AppState :=
  startStabilityTimer { s with countdownStart := none, countdownProgress := 0, winnerId := none }

/-- The touch-rebuild loop of `handleTouchChange`: folds over `e.touches`
(identifier, clientX, clientY), skipping — with a max-touches warning —
any identifier that is new while `newTouches` already holds `MAX_TOUCHES`
entries, otherwise upserting the touch (fresh entries get `placedAt := now`)
and recording first-placement order in `touchOrder`.  Returns the rebuilt
map, the grown order list and the warning flag. -/
def rebuildTouches (old : TouchMap) (now : Nat) :
    List (Nat × Int × Int) → TouchMap → List Nat → Bool → TouchMap × List Nat × Bool
  | [], acc, ord, warn => (acc, ord, warn)
  | (i, tx, ty) :: rest, acc, ord, warn =>
    if (lookupTouch old i).isNone ∧ MAX_TOUCHES ≤ acc.length then
      rebuildTouches old now rest acc ord true
    else
      let base := (lookupTouch old i).getD { x := tx, y := ty, placedAt := now }
      let acc' := setTouch acc i { base with x := tx, y := ty }
      let ord' := if i ∈ ord then ord else ord ++ [i]
      rebuildTouches old now rest acc' ord' warn

/-- `function handleTouchChange(e)` of `app.js` — `e.touches` is the event
list `ev` of live (identifier, clientX, clientY) triples, `now` is
`Date.now()`.  (DOM-only effects — title, hint — are omitted.) -/
def handleTouchChange (s : AppState) (ev : List (Nat × Int × Int)) (now : Nat) : AppState :=
  if s.mode = Mode.family then s
  else if s.phase = Phase.chosen then
    if s.mode = Mode.elimination ∧ 2 ≤ (activeIds s.touches s.eliminated).length then
      startStabilityTimer { s with phase := Phase.waiting, winnerId := none }
    else resetAll s
  else
    let r := rebuildTouches s.touches now ev [] s.touchOrder false
    let s1 := { s with
      touches := r.1,
      touchOrder := r.2.1.filter (fun i => (lookupTouch r.1 i).isSome),
      maxWarning := s.maxWarning || r.2.2 }
    let count := (touchKeys s1.touches).length
    if s1.phase = Phase.countdown then resetCountdown s1
    else if count < 2 then { resetStability s1 with phase := Phase.waiting }
    else if s1.phase = Phase.stabilizing ∨ s1.phase = Phase.waiting then
      startStabilityTimer (resetStability s1)
    else s1

/-- The countdown-advancing head of `function animate(timestamp)`:
`countdownProgress = Math.min((timestamp - countdownStart) / COUNTDOWN_DURATION, 1);
if (countdownProgress >= 1) selectWinner();` (drawing omitted; `r` is the
random draw `selectWinner` would use). -/
def animateStep (s : AppState) (ts r : Nat) : AppState :=
  match s.phase, s.countdownStart with
  | Phase.countdown, some c0 =>
    let s1 := { s with countdownProgress := min (ts - c0) COUNTDOWN_DURATION }
    if COUNTDOWN_DURATION ≤ ts - c0 then selectWinner s1 r else s1
  | _, _ => s

/-- The per-round elimination bookkeeping of `selectWinner`'s elimination
timeout, iterated over a whole session with the registry held fixed: each
round draws index `r` from the current non-eliminated id list (`none` when
the draw is out of range, which `Math.floor(Math.random() * len)` never is
for a non-empty list) and adds the drawn id to `eliminatedIds`
(`eliminatedIds.add(winnerId)`; the drawn id is active, hence not yet in
the set, so the add is a plain append). -/
def runElim (ts : TouchMap) (elim : List (Option Nat)) : List Nat → Option (List (Option Nat))
  | [] => some elim
  | r :: rs =>
    match (activeIds ts elim).get? r with
    | none => none
    | some w => runElim ts (elim ++ [some w]) rs

-- ============================================================
-- Family mode (SECTION 3 of app.js)
-- ============================================================

/-- `FAMILY_COLORS` — distinct colors for up to 10 family players. -/
def FAMILY_COLORS : List String :=
  ["#FF6B6B", "#4ECDC4", "#45B7D1", "#96CEB4", "#FFEAA7",
   "#DDA0DD", "#98D8C8", "#F7DC6F", "#BB8FCE", "#85C1E9"]

/-- One registered family player: `{ x, y, color, number, id, pulse }`
(render-only `pulse` omitted; the JS id `Date.now() + Math.random()` is an
opaque fresh value, modelled as a `Nat` supplied by the caller). -/
structure Player where
  x : Int
  y : Int
  color : String
  number : Nat
  pid : Nat
deriving DecidableEq, Repr

/-- The tap-on-existing-circle test:
`Math.sqrt(dx*dx + dy*dy) < TAP_RADIUS` with `TAP_RADIUS = 50`,
written without the square root (exactly equivalent). -/
def nearTap (p : Player) (x y : Int) : Bool :=
  decide ((p.x - x) ^ 2 + (p.y - y) ^ 2 < 2500)

/-- The renumbering loop
`familyPlayers.forEach((p, i) => { p.number = i + 1; p.color = FAMILY_COLORS[i]; })`
(the default `""` stands for the JS `undefined` of an out-of-range color
index, which the ≤ 10 length invariant keeps unreachable). -/
def renumberFrom (i : Nat) : List Player → List Player
  | [] => []
  | p :: rest =>
    { p with number := i + 1, color := FAMILY_COLORS.getD i "" } :: renumberFrom (i + 1) rest

/-- `function handleFamilyTap(e)` (registration-phase body): remove the
tapped circle and renumber, or append a new player when under the limit of
10 (over the limit the list is returned unchanged and the source shows the
max warning). -/
def handleFamilyTap (ps : List Player) (x y : Int) (fresh : Nat) : List Player :=
  match ps.findIdx? (fun p => nearTap p x y) with
  | some j => renumberFrom 0 (ps.eraseIdx j)
  | none =>
    if 10 ≤ ps.length then ps
    else ps ++ [{ x := x, y := y,
                  color := FAMILY_COLORS.getD ps.length "",
                  number := ps.length + 1, pid := fresh }]

/-- `function resetFamilyMode()` — `familyPlayers = []`. -/
def resetFamilyPlayers : List Player := []

/-- The invariant claimed for the registered list: at most 10 players, the
i-th player is displayed with number `i + 1` and color `FAMILY_COLORS[i]`. -/
def FamilyInv (ps : List Player) : Prop :=
  ps.length ≤ 10 ∧
  ∀ k p, ps.get? k = some p → p.number = k + 1 ∧ FAMILY_COLORS.get? k = some p.color

-- ============================================================
-- The Scheich fixed-position policy of the second variant
-- (src/unnamed/part_000, selectWinner lines 227-231)
-- ============================================================

namespace Variant0

/-- A JavaScript primitive value as it flows through the second variant's
scheich bookkeeping.  The distinction matters: `touchOrder.push(t.identifier)`
(part_000 line 147) stores raw *numbers*, while
`eligible = Object.keys(touches).filter(...)` (line 225) is an array of
decimal *strings* — and `Array.prototype.includes` compares with
SameValueZero (strict equality, no coercion), which never equates a
number with a string.  (`app.js` line 260 instead pushes
`String(t.identifier)`, avoiding the mismatch.) -/
inductive JSVal where
  | num (n : Nat)
  | str (s : String)
deriving DecidableEq, Repr

/-- The `touchOrder` array of part_000: raw numeric identifiers in
first-placement order. -/
def touchOrderVals (order : List Nat) : List JSVal :=
  order.map JSVal.num

/-- The `eligible` array of part_000's `selectWinner`: the
`Object.keys(touches)` decimal strings surviving the eliminated filter. -/
def eligibleVals (eligible : List Nat) : List JSVal :=
  eligible.map (fun i => JSVal.str (toString i))

/-- `touchOrder.find(id => eligible.includes(id) && touchOrder.indexOf(id) >= 1)`
(part_000 line 230); `includes` and `indexOf` use strict equality. -/
def scheichPick (touchOrder eligible : List JSVal) : Option JSVal :=
  touchOrder.find? (fun i => eligible.contains i && decide (1 ≤ touchOrder.indexOf i))

/-- `winnerId = scheichPick || eligible[0]` (part_000 line 231) — a found
value falls through to `eligible[0]` only when falsy, and `undefined` is
falsy.  (A found numeric id `0` would also be falsy, but as proved below
the find never produces a value at the program's call site anyway.) -/
def selectWinnerScheich (touchOrder eligible : List JSVal) : Option JSVal :=
  match scheichPick touchOrder eligible with
  | some w => some w
  | none => eligible.get? 0

end Variant0

-- ============================================================
-- Concrete states used by witnesses and counterexamples
-- ============================================================

def touchA : Touch := { x := 100, y := 500, placedAt := 0 }

def touchB : Touch := { x := 200, y := 500, placedAt := 1 }

def touchC : Touch := { x := 300, y := 500, placedAt := 2 }

/-- The freshly initialised module state (classic mode, empty registry). -/
def initState : AppState :=
  { mode := Mode.classic, winW := 800, winH := 600,
    touches := [], eliminated := [], touchOrder := [],
    phase := Phase.waiting, stabilityPending := false, elimPending := false,
    countdownStart := none, countdownProgress := 0, winnerId := none, maxWarning := false }

/-- Elimination mode, touches 1 and 2 held, id 1 already eliminated, a
stability timer pending: reachable by eliminating id 1 out of three held
fingers and then lifting the third. -/
def exStabState : AppState :=
  { initState with
    mode := Mode.elimination, touches := [(1, touchA), (2, touchB)],
    eliminated := [some 1], touchOrder := [1, 2],
    phase := Phase.stabilizing, stabilityPending := true }

/-- Classic mode mid-countdown with a single live touch. -/
def exOneTouchCountdown : AppState :=
  { initState with
    touches := [(1, touchA)], touchOrder := [1],
    phase := Phase.countdown, countdownStart := some 0 }

/-- Classic mode showing winner 1, touches 1 and 2 still held. -/
def exChosenState : AppState :=
  { initState with
    touches := [(1, touchA), (2, touchB)], touchOrder := [1, 2],
    phase := Phase.chosen, winnerId := some 1 }

/-- Scheich mode on an 800×600 window: touch 1 sits in the top-left
safe-zone quarter, touch 2 outside it. -/
def exScheichState : AppState :=
  { initState with
    mode := Mode.scheich,
    touches := [(1, { x := 10, y := 10, placedAt := 0 }), (2, touchB)],
    touchOrder := [1, 2] }

/-- Elimination mode mid-countdown over the three touches 1, 2, 3. -/
def exElimCountdown : AppState :=
  { initState with
    mode := Mode.elimination, touches := [(1, touchA), (2, touchB), (3, touchC)],
    touchOrder := [1, 2, 3], phase := Phase.countdown, countdownStart := some 0 }

-- ============================================================
-- C1 — stability timer fire behaviour
-- ============================================================

/-- C1 (counterexample).  The claim says that when the stability hold
timer fires, the fire-time eligibility signature is compared to the one
captured at scheduling time and that whenever the countdown does not
start, the hold timer is re-scheduled rather than silently dropped.  In
`exStabState` a hold timer is pending and at fire time only one eligible
id remains: the fired callback neither starts the countdown nor
re-schedules anything — it only consumes the timer, leaving the machine
stuck in `stabilizing` with no pending timer (and no scheduling-time
signature even exists in the source to compare against). -/
theorem stability_fire_silent_drop_cex :
    exStabState.stabilityPending = true ∧
    stabilityFire exStabState 1000 = resetStability exStabState ∧
    (stabilityFire exStabState 1000).phase = Phase.stabilizing ∧
    (stabilityFire exStabState 1000).stabilityPending = false ∧
    (stabilityFire exStabState 1000).countdownStart = none := by
  decide

/-- C1 (amended).  When the stability hold timer fires, the live
non-eliminated id list is re-read and the countdown starts iff its count
is ≥ 2; no eligibility signature is captured at scheduling time or
compared at fire time, and when the count is < 2 nothing at all happens —
the timer is consumed without being re-scheduled and the state is
otherwise unchanged. -/
theorem stability_fire_count_only (s : AppState) (now : Nat) :
    (stabilityFire s now).stabilityPending = false ∧
    (2 ≤ (activeIds s.touches s.eliminated).length →
      (stabilityFire s now).phase = Phase.countdown ∧
      (stabilityFire s now).countdownStart = some now) ∧
    ((activeIds s.touches s.eliminated).length < 2 →
      stabilityFire s now = resetStability s) := by
  refine ⟨?_, ?_, ?_⟩
  · simp only [stabilityFire, resetStability, startCountdown]
    split <;> rfl
  · intro h
    simp only [stabilityFire, resetStability, startCountdown]
    rw [if_pos h]
    exact ⟨rfl, rfl⟩
  · intro h
    simp only [stabilityFire, resetStability, startCountdown]
    rw [if_neg (by omega)]

/-- C1 (witness): the amended theorem applied to `exStabState`. -/
theorem stability_fire_count_only_witness :
    (stabilityFire exStabState 1000).stabilityPending = false ∧
    (2 ≤ (activeIds exStabState.touches exStabState.eliminated).length →
      (stabilityFire exStabState 1000).phase = Phase.countdown ∧
      (stabilityFire exStabState 1000).countdownStart = some 1000) ∧
    ((activeIds exStabState.touches exStabState.eliminated).length < 2 →
      stabilityFire exStabState 1000 = resetStability exStabState) :=
  stability_fire_count_only exStabState 1000

-- ============================================================
-- C2 — countdown cancellation
-- ============================================================

/-- C2.  Any touch event delivered while the standard machine is mid
countdown (in particular every contact-count-changing mutation, which is
always delivered as such an event) cancels the countdown: the start time
and progress are discarded, the winner is cleared and control returns to
stability detection; and the animation step — the only producer of a
winner — changes nothing at all unless the machine is in the countdown
phase, so a cancelled countdown can never produce a winner. -/
theorem countdown_cancellation :
    (∀ (s : AppState) (ev : List (Nat × Int × Int)) (now : Nat),
      s.mode ≠ Mode.family → s.phase = Phase.countdown →
        (handleTouchChange s ev now).phase = Phase.stabilizing ∧
        (handleTouchChange s ev now).countdownStart = none ∧
        (handleTouchChange s ev now).countdownProgress = 0 ∧
        (handleTouchChange s ev now).winnerId = none) ∧
    (∀ (s : AppState) (ts r : Nat),
      s.phase ≠ Phase.countdown → animateStep s ts r = s) := by
  constructor
  · intro s ev now hm hp
    have hchosen : ¬ s.phase = Phase.chosen := by rw [hp]; intro h; cases h
    simp only [handleTouchChange, if_neg hm, if_neg hchosen, hp,
      resetCountdown, startStabilityTimer]
    exact ⟨rfl, rfl, rfl, rfl⟩
  · intro s ts r hp
    unfold animateStep
    rcases hph : s.phase with _ | _ | _ | _ <;> rcases hcs : s.countdownStart with _ | c
    all_goals first
      | rfl
      | exact absurd hph hp

/-- C2 (witness): the cancellation theorem applied in elimination mode
mid-countdown to the event that lifts touch 3, and the no-winner part
applied to the resulting stabilizing state. -/
theorem countdown_cancellation_witness :
    ((handleTouchChange exElimCountdown [(1, 100, 500), (2, 200, 500)] 1200).phase =
        Phase.stabilizing ∧
      (handleTouchChange exElimCountdown [(1, 100, 500), (2, 200, 500)] 1200).countdownStart =
        none ∧
      (handleTouchChange exElimCountdown [(1, 100, 500), (2, 200, 500)] 1200).countdownProgress =
        0 ∧
      (handleTouchChange exElimCountdown [(1, 100, 500), (2, 200, 500)] 1200).winnerId = none) ∧
    animateStep exStabState 9999 0 = exStabState :=
  ⟨countdown_cancellation.1 exElimCountdown [(1, 100, 500), (2, 200, 500)] 1200
      (by decide) (by decide),
   countdown_cancellation.2 exStabState 9999 0 (by decide)⟩

-- ============================================================
-- C7 — re-validation at countdown completion
-- ============================================================

/-- Membership in the eligible list, unfolded. -/
theorem mem_activeIds {ts : TouchMap} {elim : List (Option Nat)} {i : Nat} :
    i ∈ activeIds ts elim ↔ i ∈ touchKeys ts ∧ some i ∉ elim := by
  simp [activeIds, List.mem_filter]

/-- The scheich pool only contains eligible ids. -/
theorem scheichPool_subset {w h : Int} {ts : TouchMap} {elim : List (Option Nat)} {i : Nat}
    (hi : i ∈ scheichPool w h ts elim) : i ∈ activeIds ts elim := by
  unfold scheichPool at hi
  split at hi
  · exact (List.mem_filter.mp hi).1
  · exact hi

/-- An empty eligible list gives an empty outside-the-zone list. -/
theorem scheichOutside_nil {w h : Int} {ts : TouchMap} {elim : List (Option Nat)}
    (he : activeIds ts elim = []) : scheichOutside w h ts elim = [] := by
  simp [scheichOutside, he]

/-- `selectWinner` always moves to `chosen` and draws the winner from the
mode's pool. -/
theorem selectWinner_eq (s : AppState) (r : Nat) :
    (selectWinner s r).winnerId =
      (if s.mode = Mode.scheich then (scheichPool s.winW s.winH s.touches s.eliminated).get? r
       else (activeIds s.touches s.eliminated).get? r) ∧
    (selectWinner s r).phase = Phase.chosen ∧
    (selectWinner s r).touches = s.touches ∧
    (selectWinner s r).eliminated = s.eliminated := by
  simp only [selectWinner]
  split <;> split <;> exact ⟨rfl, rfl, rfl, rfl⟩

/-- C7 (counterexample).  The claim says that on natural completion, if
fewer than 2 ids remain present, the countdown is cancelled instead of a
winner being selected.  Completing a countdown over the single live touch
1 (classic mode) selects touch 1 as winner and enters `chosen` — nothing
is cancelled, for an eligible count of 1. -/
theorem completion_no_min_count_cex :
    (activeIds exOneTouchCountdown.touches exOneTouchCountdown.eliminated).length = 1 ∧
    (animateStep exOneTouchCountdown 2500 0).winnerId = some 1 ∧
    (animateStep exOneTouchCountdown 2500 0).phase = Phase.chosen := by
  decide

/-- C7 (amended).  On natural completion of a countdown the set handed to
selection is recomputed from the live registry — so every id no longer
present (or eliminated) is dropped, and any selected winner is a live,
non-eliminated id — but no minimum-count check is performed: the machine
enters `chosen` for every registry state, selecting the sole id when one
remains and setting `winnerId` to `undefined` (`none`) when none remain. -/
theorem completion_revalidation (s : AppState) (ts r c : Nat)
    (hp : s.phase = Phase.countdown) (hc : s.countdownStart = some c)
    (hdone : COUNTDOWN_DURATION ≤ ts - c) :
    (animateStep s ts r).phase = Phase.chosen ∧
    (∀ w, (animateStep s ts r).winnerId = some w →
      w ∈ touchKeys s.touches ∧ some w ∉ s.eliminated) ∧
    (activeIds s.touches s.eliminated = [] → (animateStep s ts r).winnerId = none) := by
  have hstep : animateStep s ts r =
      selectWinner { s with countdownProgress := min (ts - c) COUNTDOWN_DURATION } r := by
    simp only [animateStep, hp, hc]
    rw [if_pos hdone]
  set s1 : AppState := { s with countdownProgress := min (ts - c) COUNTDOWN_DURATION } with hs1
  obtain ⟨hwin, hph, -, -⟩ := selectWinner_eq s1 r
  rw [hstep]
  refine ⟨hph, ?_, ?_⟩
  · intro w hw
    rw [hwin] at hw
    split at hw
    · exact mem_activeIds.mp (scheichPool_subset (List.get?_mem hw))
    · exact mem_activeIds.mp (List.get?_mem hw)
  · intro hnil
    rw [hwin]
    have hnil1 : activeIds s1.touches s1.eliminated = [] := hnil
    split
    · rw [show scheichPool s1.winW s1.winH s1.touches s1.eliminated = [] by
        simp [scheichPool, scheichOutside_nil hnil1, hnil1]]
      rfl
    · rw [hnil1]; rfl

/-- C7 (witness): the amended theorem applied to the single-touch
countdown completing at full duration. -/
theorem completion_revalidation_witness :
    (animateStep exOneTouchCountdown 2500 0).phase = Phase.chosen ∧
    (∀ w, (animateStep exOneTouchCountdown 2500 0).winnerId = some w →
      w ∈ touchKeys exOneTouchCountdown.touches ∧ some w ∉ exOneTouchCountdown.eliminated) ∧
    (activeIds exOneTouchCountdown.touches exOneTouchCountdown.eliminated = [] →
      (animateStep exOneTouchCountdown 2500 0).winnerId = none) :=
  completion_revalidation exOneTouchCountdown 2500 0 0 rfl rfl (by decide)

-- ============================================================
-- C8 — behaviour while the winner is showing
-- ============================================================

/-- C8 (counterexample).  The claim says that in the winner-showing state
every registry mutation is ignored, except that releasing the winning
contact ends the round.  In `exChosenState` (classic, winner 1 showing,
touches 1 and 2 held) the arrival of a *new* touch 3 — with the winning
contact 1 still present in the event — is not ignored: it ends the round
immediately, wiping the registry and the winner. -/
theorem chosen_not_ignored_cex :
    exChosenState.winnerId = some 1 ∧
    ((1 : Nat), (100 : Int), (500 : Int)) ∈ [((1 : Nat), (100 : Int), (500 : Int)),
      (2, 200, 500), (3, 300, 500)] ∧
    (handleTouchChange exChosenState [(1, 100, 500), (2, 200, 500), (3, 300, 500)] 50).touches
      = [] ∧
    (handleTouchChange exChosenState [(1, 100, 500), (2, 200, 500), (3, 300, 500)] 50).phase
      = Phase.waiting ∧
    (handleTouchChange exChosenState [(1, 100, 500), (2, 200, 500), (3, 300, 500)] 50).winnerId
      = none := by
  decide

/-- C8 (amended).  While the winner is showing (`chosen`), no registry
mutation is ignored: every touch event ends the round at once — in
elimination mode with at least two non-eliminated tracked contacts it
starts the next elimination round (registry and elimination set kept,
winner cleared, stability detection restarted), and in every other case
(including the winning contact still being held) it resets the whole
round to the idle state. -/
theorem chosen_any_touch_resets (s : AppState) (ev : List (Nat × Int × Int)) (now : Nat)
    (hm : s.mode ≠ Mode.family) (hp : s.phase = Phase.chosen) :
    (s.mode = Mode.elimination ∧ 2 ≤ (activeIds s.touches s.eliminated).length →
      (handleTouchChange s ev now).phase = Phase.stabilizing ∧
      (handleTouchChange s ev now).touches = s.touches ∧
      (handleTouchChange s ev now).eliminated = s.eliminated ∧
      (handleTouchChange s ev now).winnerId = none ∧
      (handleTouchChange s ev now).stabilityPending = true) ∧
    (¬(s.mode = Mode.elimination ∧ 2 ≤ (activeIds s.touches s.eliminated).length) →
      (handleTouchChange s ev now).phase = Phase.waiting ∧
      (handleTouchChange s ev now).touches = [] ∧
      (handleTouchChange s ev now).eliminated = [] ∧
      (handleTouchChange s ev now).winnerId = none) := by
  constructor
  · intro h
    simp only [handleTouchChange, if_neg hm, if_pos hp, if_pos h, startStabilityTimer]
    refine ⟨?_, ?_, ?_, ?_, ?_⟩ <;> first | rfl | exact trivial
  · intro h
    simp only [handleTouchChange, if_neg hm, if_pos hp, if_neg h, resetAll]
    refine ⟨?_, ?_, ?_, ?_⟩ <;> first | rfl | exact trivial

/-- C8 (witness): the amended theorem applied to the classic
winner-showing state hit by a new touch. -/
theorem chosen_any_touch_resets_witness :
    (exChosenState.mode = Mode.elimination ∧
        2 ≤ (activeIds exChosenState.touches exChosenState.eliminated).length →
      (handleTouchChange exChosenState [(3, 300, 500)] 50).phase = Phase.stabilizing ∧
      (handleTouchChange exChosenState [(3, 300, 500)] 50).touches = exChosenState.touches ∧
      (handleTouchChange exChosenState [(3, 300, 500)] 50).eliminated =
        exChosenState.eliminated ∧
      (handleTouchChange exChosenState [(3, 300, 500)] 50).winnerId = none ∧
      (handleTouchChange exChosenState [(3, 300, 500)] 50).stabilityPending = true) ∧
    (¬(exChosenState.mode = Mode.elimination ∧
        2 ≤ (activeIds exChosenState.touches exChosenState.eliminated).length) →
      (handleTouchChange exChosenState [(3, 300, 500)] 50).phase = Phase.waiting ∧
      (handleTouchChange exChosenState [(3, 300, 500)] 50).touches = [] ∧
      (handleTouchChange exChosenState [(3, 300, 500)] 50).eliminated = [] ∧
      (handleTouchChange exChosenState [(3, 300, 500)] 50).winnerId = none) :=
  chosen_any_touch_resets exChosenState [(3, 300, 500)] 50 (by decide) rfl

-- ============================================================
-- C9 — stale-timer invalidation
-- ============================================================

/-- C9 (code evaluated at the failing input).  The 2000 ms elimination
display timeout scheduled by `selectWinner` is anonymous — its handle is
never stored — so nothing can invalidate it.  Failing trace (elimination
mode, touches 1, 2, 3): the countdown completes at t = 2500 picking
touch 1 (`animateStep`, which schedules the display timeout); at t = 2600,
before the timeout fires, a tap restarts the round (the `chosen` branch of
`handleTouchChange`, which resets round state but leaves the timeout
pending); the new round's stability timer fires at t = 3600 and starts a
fresh countdown; at t = 4500 — mid-countdown of the *new* round — the
stale display timeout finally fires (`elimFire`): it adds the current
`winnerId`, now `null`, to `eliminatedIds` and yanks the machine out of
its running countdown back to `stabilizing`.  A timer scheduled in the
previous round thus fires into the newer round's state, exactly the bug
class the claim asserts is prevented. -/
theorem stale_elim_timer_fires_into_new_round :
    -- t = 2500: countdown completes, winner shown, display timeout scheduled
    (animateStep exElimCountdown 2500 0).winnerId = some 1 ∧
    (animateStep exElimCountdown 2500 0).elimPending = true ∧
    -- t = 2600: a tap restarts the round; the timeout is still pending
    (handleTouchChange (animateStep exElimCountdown 2500 0)
        [(1, 100, 500), (2, 200, 500), (3, 300, 500), (4, 400, 500)] 2600).phase =
      Phase.stabilizing ∧
    (handleTouchChange (animateStep exElimCountdown 2500 0)
        [(1, 100, 500), (2, 200, 500), (3, 300, 500), (4, 400, 500)] 2600).elimPending =
      true ∧
    -- t = 3600: the new round's stability timer starts a fresh countdown
    (stabilityFire (handleTouchChange (animateStep exElimCountdown 2500 0)
        [(1, 100, 500), (2, 200, 500), (3, 300, 500), (4, 400, 500)] 2600) 3600).phase =
      Phase.countdown ∧
    -- t = 4500 < 3600 + COUNTDOWN_DURATION: the stale timeout fires into it
    (elimFire (stabilityFire (handleTouchChange (animateStep exElimCountdown 2500 0)
        [(1, 100, 500), (2, 200, 500), (3, 300, 500), (4, 400, 500)] 2600) 3600)).phase =
      Phase.stabilizing ∧
    (elimFire (stabilityFire (handleTouchChange (animateStep exElimCountdown 2500 0)
        [(1, 100, 500), (2, 200, 500), (3, 300, 500), (4, 400, 500)] 2600) 3600)).eliminated =
      [none] ∧
    4500 < 3600 + COUNTDOWN_DURATION := by
  decide

-- ============================================================
-- C5 — zone-exclusion policy
-- ============================================================

/-- C5.  In scheich (zone-exclusion) mode, for every non-empty eligible
set the pool drawn from is never empty: it is the outside-the-zone subset
when that subset is non-empty and the full eligible set otherwise, and
every draw in range returns a valid eligible winner id — selection never
fails, even when every participant sits inside the zone. -/
theorem zone_exclusion_fallback (s : AppState) (r : Nat)
    (hm : s.mode = Mode.scheich)
    (hne : activeIds s.touches s.eliminated ≠ [])
    (hr : r < (scheichPool s.winW s.winH s.touches s.eliminated).length) :
    0 < (scheichPool s.winW s.winH s.touches s.eliminated).length ∧
    (∃ w, (selectWinner s r).winnerId = some w ∧
      w ∈ activeIds s.touches s.eliminated ∧
      (scheichOutside s.winW s.winH s.touches s.eliminated ≠ [] →
        w ∈ scheichOutside s.winW s.winH s.touches s.eliminated)) ∧
    (scheichOutside s.winW s.winH s.touches s.eliminated = [] →
      scheichPool s.winW s.winH s.touches s.eliminated = activeIds s.touches s.eliminated) := by
  obtain ⟨hwin, -, -, -⟩ := selectWinner_eq s r
  rw [if_pos hm] at hwin
  have hpos : 0 < (scheichPool s.winW s.winH s.touches s.eliminated).length := by
    unfold scheichPool
    split
    · assumption
    · exact List.length_pos.mpr hne
  refine ⟨hpos, ?_, ?_⟩
  · obtain ⟨w, hw⟩ : ∃ w,
        (scheichPool s.winW s.winH s.touches s.eliminated).get? r = some w :=
      ⟨_, List.get?_eq_get hr⟩
    refine ⟨w, by rw [hwin, hw], scheichPool_subset (List.get?_mem hw), ?_⟩
    intro ho
    have hmem : w ∈ scheichPool s.winW s.winH s.touches s.eliminated := List.get?_mem hw
    unfold scheichPool at hmem
    rwa [if_pos (List.length_pos.mpr ho)] at hmem
  · intro ho
    simp [scheichPool, ho]

/-- C5 (witness): touch 1 inside the zone, touch 2 outside; draw 0 picks
the outside touch 2. -/
theorem zone_exclusion_fallback_witness :
    0 < (scheichPool exScheichState.winW exScheichState.winH exScheichState.touches
          exScheichState.eliminated).length ∧
    (∃ w, (selectWinner exScheichState 0).winnerId = some w ∧
      w ∈ activeIds exScheichState.touches exScheichState.eliminated ∧
      (scheichOutside exScheichState.winW exScheichState.winH exScheichState.touches
          exScheichState.eliminated ≠ [] →
        w ∈ scheichOutside exScheichState.winW exScheichState.winH exScheichState.touches
          exScheichState.eliminated)) ∧
    (scheichOutside exScheichState.winW exScheichState.winH exScheichState.touches
        exScheichState.eliminated = [] →
      scheichPool exScheichState.winW exScheichState.winH exScheichState.touches
        exScheichState.eliminated = activeIds exScheichState.touches
        exScheichState.eliminated) :=
  zone_exclusion_fallback exScheichState 0 rfl (by decide) (by decide)

-- ============================================================
-- C4 — fixed-position ("second placed") policy of the second variant
-- (src/unnamed/part_000, selectWinner lines 227-231)
-- ============================================================

/-- C4 (counterexample).  The claim says that with more than one eligible
participant the selected winner's placement rank among the eligible ids
is ≥ 1 (never the very first placed).  With placement order `[1, 2]` and
both ids eligible, the program selects `eligible[0]` — the string `"1"`,
i.e. the very first-placed participant, rank 0 — because
`eligible.includes(id)` strictly compares the numeric `touchOrder`
entries against the `Object.keys` strings and never matches, so the
`find` is always `undefined`. -/
theorem scheich_rank_cex :
    2 ≤ (Variant0.eligibleVals [1, 2]).length ∧
    Variant0.selectWinnerScheich (Variant0.touchOrderVals [1, 2])
      (Variant0.eligibleVals [1, 2]) = some (Variant0.JSVal.str "1") ∧
    (Variant0.touchOrderVals [1, 2]).get? 0 = some (Variant0.JSVal.num 1) ∧
    (Variant0.eligibleVals [1, 2]).get? 0 = some (Variant0.JSVal.str "1") := by
  decide

/-- C4 (amended).  In the second variant, `touchOrder` holds raw numeric
identifiers while `eligible` holds the `Object.keys` decimal strings, and
the strict-equality `includes` never equates the two: the
rank-≥-1 pick is always `undefined`, and for every placement order and
every eligible set the selection returns `eligible[0]` — the first
eligible id in key-enumeration order, regardless of placement rank (a
valid eligible id whenever the eligible set is non-empty, `undefined`
otherwise).  The "second placed" behaviour described by the claim never
executes. -/
theorem scheich_always_first_eligible (order eligible : List Nat) :
    Variant0.scheichPick (Variant0.touchOrderVals order)
      (Variant0.eligibleVals eligible) = none ∧
    Variant0.selectWinnerScheich (Variant0.touchOrderVals order)
      (Variant0.eligibleVals eligible) = (Variant0.eligibleVals eligible).get? 0 ∧
    (∀ w, eligible.get? 0 = some w →
      Variant0.selectWinnerScheich (Variant0.touchOrderVals order)
        (Variant0.eligibleVals eligible) = some (Variant0.JSVal.str (toString w))) := by
  have hnone : Variant0.scheichPick (Variant0.touchOrderVals order)
      (Variant0.eligibleVals eligible) = none := by
    unfold Variant0.scheichPick
    rw [List.find?_eq_none]
    intro x hx
    obtain ⟨n, -, rfl⟩ := List.mem_map.mp hx
    simp only [Bool.and_eq_true, decide_eq_true_eq]
    rintro ⟨hc, -⟩
    obtain ⟨i, -, he⟩ := List.mem_map.mp (List.elem_iff.mp hc)
    cases he
  refine ⟨hnone, ?_, ?_⟩
  · unfold Variant0.selectWinnerScheich
    rw [hnone]
  · intro w hw
    unfold Variant0.selectWinnerScheich
    rw [hnone]
    unfold Variant0.eligibleVals
    rw [List.get?_map, hw]
    rfl

/-- C4 (witness): the amended theorem applied to placement order `[1, 2]`
with eligible ids `[2, 3]`: the pick misses and the winner is the string
of the first eligible id, 2. -/
theorem scheich_always_first_eligible_witness :
    Variant0.scheichPick (Variant0.touchOrderVals [1, 2])
      (Variant0.eligibleVals [2, 3]) = none ∧
    Variant0.selectWinnerScheich (Variant0.touchOrderVals [1, 2])
      (Variant0.eligibleVals [2, 3]) = (Variant0.eligibleVals [2, 3]).get? 0 ∧
    (∀ w, ([2, 3] : List Nat).get? 0 = some w →
      Variant0.selectWinnerScheich (Variant0.touchOrderVals [1, 2])
        (Variant0.eligibleVals [2, 3]) = some (Variant0.JSVal.str (toString w))) :=
  scheich_always_first_eligible [1, 2] [2, 3]


-- ============================================================
-- C6 — capacity limit
-- ============================================================

/-- A key is present in the map iff its lookup succeeds. -/
theorem lookupTouch_isSome_iff {ts : TouchMap} {i : Nat} :
    (lookupTouch ts i).isSome ↔ i ∈ touchKeys ts := by
  induction ts with
  | nil => simp [lookupTouch, touchKeys]
  | cons p rest ih =>
    rcases p with ⟨j, t⟩
    by_cases h : j = i
    · simp [lookupTouch, touchKeys, List.find?_cons, h]
    · have h' : ¬ i = j := fun he => h he.symm
      simp [lookupTouch, touchKeys, List.find?_cons, h, h', ← ih]

/-- Assigning a fresh key appends it to the key list. -/
theorem touchKeys_setTouch_not_mem {ts : TouchMap} {i : Nat} {t : Touch}
    (h : i ∉ touchKeys ts) :
    touchKeys (setTouch ts i t) = touchKeys ts ++ [i] := by
  unfold setTouch
  rw [if_neg (fun hs => h (lookupTouch_isSome_iff.mp hs))]
  simp [touchKeys]

/-- Processing already-tracked identifiers never warns and never drops:
each is re-inserted into the rebuilt map regardless of the capacity count. -/
theorem rebuildTouches_old_ids (old : TouchMap) (now : Nat) :
    ∀ (ev : List (Nat × Int × Int)) (acc : TouchMap) (ord : List Nat) (w : Bool),
      (∀ p ∈ ev, p.1 ∈ touchKeys old) →
      (ev.map (fun p => p.1)).Nodup →
      (∀ p ∈ ev, p.1 ∉ touchKeys acc) →
      touchKeys (rebuildTouches old now ev acc ord w).1
          = touchKeys acc ++ ev.map (fun p => p.1) ∧
        (rebuildTouches old now ev acc ord w).2.2 = w := by
  intro ev
  induction ev with
  | nil => intro acc ord w _ _ _; simp [rebuildTouches]
  | cons p rest ih =>
    rcases p with ⟨i, tx, ty⟩
    intro acc ord w hold hnd hacc
    have hi : i ∈ touchKeys old := hold (i, tx, ty) (by simp)
    have hisome : (lookupTouch old i).isSome := lookupTouch_isSome_iff.mpr hi
    have hcond : ¬((lookupTouch old i).isNone ∧ MAX_TOUCHES ≤ acc.length) := by
      rintro ⟨hn, -⟩
      rw [Option.isNone_iff_eq_none.mp hn] at hisome
      cases hisome
    rw [rebuildTouches, if_neg hcond]
    have hinacc : i ∉ touchKeys acc := hacc (i, tx, ty) (by simp)
    have hkeys : ∀ t : Touch, touchKeys (setTouch acc i t) = touchKeys acc ++ [i] :=
      fun _ => touchKeys_setTouch_not_mem hinacc
    simp only [List.map_cons, List.nodup_cons] at hnd
    obtain ⟨hni, hndrest⟩ := hnd
    have := ih (setTouch acc i
        { ((lookupTouch old i).getD { x := tx, y := ty, placedAt := now }) with
          x := tx, y := ty }) (if i ∈ ord then ord else ord ++ [i]) w
      (fun q hq => hold q (by simp [hq]))
      hndrest
      (fun q hq => by
        rw [hkeys _]
        simp only [List.mem_append, List.mem_singleton]
        rintro (h | h)
        · exact hacc q (by simp [hq]) h
        · exact hni (h ▸ List.mem_map_of_mem (fun p => p.1) hq))
    rw [this.1, hkeys _]
    exact ⟨by simp, this.2⟩

/-- The rebuild loop processes a concatenated event list in two stages. -/
theorem rebuildTouches_append (old : TouchMap) (now : Nat)
    (ev1 ev2 : List (Nat × Int × Int)) :
    ∀ (acc : TouchMap) (ord : List Nat) (w : Bool),
      rebuildTouches old now (ev1 ++ ev2) acc ord w =
        rebuildTouches old now ev2 (rebuildTouches old now ev1 acc ord w).1
          (rebuildTouches old now ev1 acc ord w).2.1
          (rebuildTouches old now ev1 acc ord w).2.2 := by
  induction ev1 with
  | nil => intro acc ord w; rfl
  | cons p rest ih =>
    rcases p with ⟨i, tx, ty⟩
    intro acc ord w
    simp only [List.cons_append, rebuildTouches]
    split
    · exact ih acc ord true
    · exact ih (setTouch acc i _) _ w

/-- C6.  A contact-start event arriving with the tracked-contact count at
the capacity limit (`MAX_TOUCHES`): the already-tracked identifiers are
all re-reported by the event, followed by one new identifier (browser
`TouchList`s report touches in start order, so the new contact comes
last).  The new id is not tracked, the max-touches warning is signalled,
and the tracked id set is left exactly as it was — no id is evicted. -/
theorem capacity_limit_rejects_new (old : TouchMap) (now : Nat)
    (evOld : List (Nat × Int × Int)) (nid : Nat) (nx ny : Int) (ord : List Nat)
    (hcap : MAX_TOUCHES ≤ old.length)
    (hids : evOld.map (fun p => p.1) = touchKeys old)
    (hnd : (touchKeys old).Nodup)
    (hnew : nid ∉ touchKeys old) :
    touchKeys (rebuildTouches old now (evOld ++ [(nid, nx, ny)]) [] ord false).1
        = touchKeys old ∧
    lookupTouch (rebuildTouches old now (evOld ++ [(nid, nx, ny)]) [] ord false).1 nid
        = none ∧
    (rebuildTouches old now (evOld ++ [(nid, nx, ny)]) [] ord false).2.2 = true := by
  have hstage := rebuildTouches_old_ids old now evOld [] ord false
    (fun p hp => by rw [← hids]; exact List.mem_map_of_mem (fun p => p.1) hp)
    (by rw [hids]; exact hnd)
    (fun p _ => by simp [touchKeys])
  rw [rebuildTouches_append]
  set M := rebuildTouches old now evOld [] ord false with hM
  have hkeysM : touchKeys M.1 = touchKeys old := by
    rw [hstage.1, hids]
    simp [touchKeys]
  have hlenM : MAX_TOUCHES ≤ M.1.length := by
    have h1 : (touchKeys M.1).length = M.1.length := by simp [touchKeys]
    have h2 : (touchKeys old).length = old.length := by simp [touchKeys]
    rw [← h1, hkeysM, h2]
    exact hcap
  have hnone : (lookupTouch old nid).isNone := by
    rw [Option.isNone_iff_eq_none, ← Option.not_isSome_iff_eq_none]
    exact fun hs => hnew (lookupTouch_isSome_iff.mp hs)
  rw [rebuildTouches, if_pos ⟨hnone, hlenM⟩, rebuildTouches]
  refine ⟨hkeysM, ?_, rfl⟩
  rw [← Option.not_isSome_iff_eq_none]
  intro hs
  exact hnew (hkeysM ▸ lookupTouch_isSome_iff.mp hs)

/-- C6 (witness): five tracked touches, a sixth contact 6 starts — it is
rejected with a warning and the five survive. -/
theorem capacity_limit_rejects_new_witness :
    touchKeys (rebuildTouches
        [(1, touchA), (2, touchB), (3, touchC), (4, touchA), (5, touchB)] 9
        ([(1, 100, 500), (2, 200, 500), (3, 300, 500), (4, 100, 500), (5, 200, 500)] ++
          [(6, 300, 500)]) [] [1, 2, 3, 4, 5] false).1
        = touchKeys [(1, touchA), (2, touchB), (3, touchC), (4, touchA), (5, touchB)] ∧
    lookupTouch (rebuildTouches
        [(1, touchA), (2, touchB), (3, touchC), (4, touchA), (5, touchB)] 9
        ([(1, 100, 500), (2, 200, 500), (3, 300, 500), (4, 100, 500), (5, 200, 500)] ++
          [(6, 300, 500)]) [] [1, 2, 3, 4, 5] false).1 6 = none ∧
    (rebuildTouches
        [(1, touchA), (2, touchB), (3, touchC), (4, touchA), (5, touchB)] 9
        ([(1, 100, 500), (2, 200, 500), (3, 300, 500), (4, 100, 500), (5, 200, 500)] ++
          [(6, 300, 500)]) [] [1, 2, 3, 4, 5] false).2.2 = true :=
  capacity_limit_rejects_new
    [(1, touchA), (2, touchB), (3, touchC), (4, touchA), (5, touchB)] 9
    [(1, 100, 500), (2, 200, 500), (3, 300, 500), (4, 100, 500), (5, 200, 500)]
    6 300 500 [1, 2, 3, 4, 5] (by decide) (by decide) (by decide) (by decide)

-- ============================================================
-- C10 — family registration invariant
-- ============================================================

/-- Renumbering keeps the list length. -/
theorem renumberFrom_length (ps : List Player) :
    ∀ i, (renumberFrom i ps).length = ps.length := by
  induction ps with
  | nil => intro i; rfl
  | cons p rest ih => intro i; simp [renumberFrom, ih]

/-- The k-th entry after renumbering from `i` carries number `i + k + 1`
and color `FAMILY_COLORS[i + k]`. -/
theorem renumberFrom_get? (ps : List Player) :
    ∀ i k, (renumberFrom i ps).get? k = (ps.get? k).map
      (fun p => { p with number := i + k + 1, color := FAMILY_COLORS.getD (i + k) "" }) := by
  induction ps with
  | nil => intro i k; simp [renumberFrom]
  | cons p rest ih =>
    intro i k
    cases k with
    | zero => simp [renumberFrom]
    | succ k =>
      have harith : i + 1 + k = i + (k + 1) := by omega
      simp only [renumberFrom, List.get?_cons_succ, ih (i + 1) k, harith]

/-- C10.  In family mode the registered list always satisfies: at most 10
players, the k-th player displays number `k + 1` and wears color
`FAMILY_COLORS[k]`.  The invariant is preserved by every tap (both the
add-by-tap and the remove-by-tap-with-renumbering branch) and holds for
the reset list. -/
theorem family_invariant_preserved (ps : List Player) (x y : Int) (fresh : Nat)
    (h : FamilyInv ps) :
    FamilyInv (handleFamilyTap ps x y fresh) ∧ FamilyInv resetFamilyPlayers := by
  obtain ⟨hlen, hget⟩ := h
  constructor
  · unfold handleFamilyTap
    cases hf : ps.findIdx? (fun p => nearTap p x y) with
    | some j =>
      -- remove-and-renumber branch
      constructor
      · rw [renumberFrom_length]
        exact le_trans (List.length_eraseIdx_le _ _) hlen
      · intro k p hp
        rw [renumberFrom_get?] at hp
        cases he : (ps.eraseIdx j).get? k with
        | none => rw [he] at hp; cases hp
        | some q =>
          rw [he] at hp
          have hk10 : k < 10 := by
            have hklt : k < (ps.eraseIdx j).length := by
              by_contra hge
              rw [List.get?_eq_none.mpr (Nat.le_of_not_lt hge)] at he
              cases he
            calc k < (ps.eraseIdx j).length := hklt
              _ ≤ ps.length := List.length_eraseIdx_le _ _
              _ ≤ 10 := hlen
          obtain ⟨c, hc⟩ : ∃ c, FAMILY_COLORS.get? k = some c :=
            ⟨_, List.get?_eq_get (by simpa [FAMILY_COLORS] using hk10)⟩
          have hp' : p = { q with number := 0 + k + 1, color := FAMILY_COLORS.getD k "" } := by
            simpa using hp.symm
          subst hp'
          have hc' : FAMILY_COLORS[k]? = some c := by
            rw [← List.get?_eq_getElem?]
            exact hc
          refine ⟨by show 0 + k + 1 = k + 1; omega, ?_⟩
          show FAMILY_COLORS.get? k = some (FAMILY_COLORS.getD k "")
          rw [List.get?_eq_getElem?, hc', List.getD_eq_getElem?_getD, hc']
          rfl
    | none =>
      -- add branch
      by_cases hcap : 10 ≤ ps.length
      · rw [if_pos hcap]
        exact ⟨hlen, hget⟩
      · rw [if_neg hcap]
        constructor
        · simp only [List.length_append, List.length_cons, List.length_nil]
          omega
        · intro k p hp
          rcases Nat.lt_trichotomy k ps.length with hk | hk | hk
          · rw [List.get?_append hk] at hp
            exact hget k p hp
          · rw [hk, List.get?_concat_length] at hp
            obtain ⟨c, hc⟩ : ∃ c, FAMILY_COLORS.get? ps.length = some c :=
              ⟨_, List.get?_eq_get (by
                simpa [FAMILY_COLORS] using Nat.lt_of_not_le hcap)⟩
            cases hp
            rw [← hk] at hc ⊢
            refine ⟨rfl, ?_⟩
            rw [hc]
            simp only [List.getD, hc, Option.getD]
          · rw [List.get?_eq_none.mpr (by
                simp only [List.length_append, List.length_cons, List.length_nil]
                omega)] at hp
            cases hp
  · exact ⟨by decide, fun k p hp => by simp [resetFamilyPlayers] at hp⟩

/-- C10 (witness): the preservation theorem applied to the empty list
(a first registration tap). -/
theorem family_invariant_preserved_witness :
    FamilyInv (handleFamilyTap [] 100 100 7) ∧ FamilyInv resetFamilyPlayers :=
  family_invariant_preserved [] 100 100 7
    ⟨by decide, fun k p hp => by simp at hp⟩

-- ============================================================
-- C3 — elimination termination
-- ============================================================

/-- With nothing eliminated, every tracked id is eligible. -/
theorem activeIds_nil_elim (ts : TouchMap) : activeIds ts [] = touchKeys ts := by
  simp [activeIds]

/-- Eliminating one further id restricts the eligible list to the ids
different from it. -/
theorem activeIds_append_singleton (ts : TouchMap) (elim : List (Option Nat)) (w : Nat) :
    activeIds ts (elim ++ [some w]) =
      (activeIds ts elim).filter (fun i => decide (i ≠ w)) := by
  unfold activeIds
  rw [List.filter_filter]
  apply List.filter_congr
  intro i _
  by_cases h1 : some i ∈ elim <;> by_cases h2 : i = w <;>
    simp [h1, h2, List.mem_append, List.mem_singleton]

/-- Removing one present element of a duplicate-free list by filtering
shortens it by exactly one. -/
theorem length_filter_ne (w : Nat) :
    ∀ (l : List Nat), l.Nodup → w ∈ l →
      (l.filter (fun i => decide (i ≠ w))).length + 1 = l.length := by
  intro l
  induction l with
  | nil => intro _ hw; cases hw
  | cons a rest ih =>
    intro hnd hw
    rw [List.nodup_cons] at hnd
    obtain ⟨ha, hndr⟩ := hnd
    by_cases haw : a = w
    · subst haw
      rw [List.filter_cons_of_neg (by simp)]
      have hsame : rest.filter (fun i => decide (i ≠ a)) = rest := by
        apply List.filter_eq_self.mpr
        intro b hb
        exact decide_eq_true (fun he => ha (he ▸ hb))
      rw [hsame]
      simp
    · have hwr : w ∈ rest := by
        rcases List.mem_cons.mp hw with he | hm
        · exact absurd he.symm haw
        · exact hm
      have hfc : List.filter (fun i => decide (i ≠ w)) (a :: rest)
          = a :: List.filter (fun i => decide (i ≠ w)) rest := by
        simp [List.filter_cons, haw]
      rw [hfc]
      have := ih hndr hwr
      simp only [List.length_cons]
      omega

/-- Invariants of a whole elimination run over a fixed registry: the
eligible count drops by one per draw, the eliminated list grows by one
per draw, every eliminated entry is an initially eligible id, and no id
is eliminated twice. -/
theorem runElim_spec (ts : TouchMap) (hnd : (touchKeys ts).Nodup) :
    ∀ (draws : List Nat) (elim e' : List (Option Nat)),
      runElim ts elim draws = some e' →
      (activeIds ts e').length + draws.length = (activeIds ts elim).length ∧
      e'.length = elim.length + draws.length ∧
      (∀ o ∈ e', o ∈ elim ∨ ∃ x, o = some x ∧ x ∈ activeIds ts elim) ∧
      (elim.Nodup → e'.Nodup) := by
  intro draws
  induction draws with
  | nil =>
    intro elim e' h
    have he : elim = e' := by simpa [runElim] using h
    subst he
    exact ⟨by simp, by simp, fun o ho => Or.inl ho, fun hh => hh⟩
  | cons r rs ih =>
    intro elim e' h
    rw [runElim] at h
    cases hg : (activeIds ts elim).get? r with
    | none => rw [hg] at h; cases h
    | some w =>
      rw [hg] at h
      have hw : w ∈ activeIds ts elim := List.get?_mem hg
      have hwnot : some w ∉ elim := (mem_activeIds.mp hw).2
      obtain ⟨h1, h2, h3, h4⟩ := ih (elim ++ [some w]) e' h
      have hlen : (activeIds ts (elim ++ [some w])).length + 1 =
          (activeIds ts elim).length := by
        rw [activeIds_append_singleton]
        exact length_filter_ne w (activeIds ts elim) (hnd.filter _) hw
      refine ⟨?_, ?_, ?_, ?_⟩
      · simp only [List.length_cons]
        omega
      · simp only [List.length_append, List.length_cons, List.length_nil] at h2
        simp only [List.length_cons]
        omega
      · intro o ho
        rcases h3 o ho with hin | ⟨x, hx, hmem⟩
        · rcases List.mem_append.mp hin with hl | hr
          · exact Or.inl hl
          · refine Or.inr ⟨w, ?_, hw⟩
            simpa using hr
        · refine Or.inr ⟨x, hx, ?_⟩
          rw [activeIds_append_singleton] at hmem
          exact (List.mem_filter.mp hmem).1
      · intro hnde
        exact h4 (by simp [List.nodup_append, hnde, hwnot])

/-- C3.  An elimination session over a fixed registry of `k ≥ 2`
distinctly-identified contacts that all stay present: after exactly
`k − 1` draws exactly one id remains eligible, the eliminated entries
number exactly `k − 1`, they are pairwise distinct actual ids, and
together with the final remaining id they partition the original id set
with no overlap; before the last draw at least two ids always remain.
At the machine level, each firing of the elimination display timeout
(`elimFire`) moves the shown winner into `eliminatedIds` and then: with
one survivor left, reports it as overall winner and stays in `chosen`;
with two or more, returns to stability detection over the same registry;
with zero, resets the round to the idle state. -/
theorem elimination_termination (ts : TouchMap) (draws : List Nat) (e' : List (Option Nat))
    (hnd : (touchKeys ts).Nodup) (hk : 2 ≤ ts.length)
    (hdr : draws.length = ts.length - 1)
    (hrun : runElim ts [] draws = some e') :
    (activeIds ts e').length = 1 ∧
    e'.length = ts.length - 1 ∧
    (∀ x, x ∈ touchKeys ts ↔ (some x ∈ e' ∨ x ∈ activeIds ts e')) ∧
    (∀ x, some x ∈ e' → x ∉ activeIds ts e') ∧
    e'.Nodup ∧
    (∀ pre post e'', draws = pre ++ post → post ≠ [] → runElim ts [] pre = some e'' →
      2 ≤ (activeIds ts e'').length) ∧
    (∀ s : AppState,
      ((activeIds s.touches (elimAdd s.eliminated s.winnerId)).length = 1 →
        (elimFire s).phase = Phase.chosen ∧
        (elimFire s).winnerId = (activeIds s.touches (elimAdd s.eliminated s.winnerId)).head?) ∧
      (2 ≤ (activeIds s.touches (elimAdd s.eliminated s.winnerId)).length →
        (elimFire s).phase = Phase.stabilizing ∧ (elimFire s).winnerId = none ∧
        (elimFire s).stabilityPending = true ∧ (elimFire s).touches = s.touches ∧
        (elimFire s).eliminated = elimAdd s.eliminated s.winnerId) ∧
      ((activeIds s.touches (elimAdd s.eliminated s.winnerId)).length = 0 →
        (elimFire s).phase = Phase.waiting ∧ (elimFire s).touches = [])) := by
  have hkeys : (touchKeys ts).length = ts.length := by simp [touchKeys]
  have hact0 : (activeIds ts []).length = ts.length := by
    rw [activeIds_nil_elim]; exact hkeys
  obtain ⟨h1, h2, h3, h4⟩ := runElim_spec ts hnd draws [] e' hrun
  rw [hact0] at h1
  simp only [List.length_nil, Nat.zero_add] at h2
  refine ⟨by omega, by omega, ?_, ?_, h4 List.nodup_nil, ?_, ?_⟩
  · intro x
    constructor
    · intro hx
      by_cases hxe : some x ∈ e'
      · exact Or.inl hxe
      · exact Or.inr (mem_activeIds.mpr ⟨hx, hxe⟩)
    · rintro (hxe | hxa)
      · rcases h3 (some x) hxe with hin | ⟨y, hy, hmem⟩
        · cases hin
        · obtain rfl : x = y := Option.some.inj hy
          rw [activeIds_nil_elim] at hmem
          exact hmem
      · exact (mem_activeIds.mp hxa).1
  · intro x hxe hxa
    exact (mem_activeIds.mp hxa).2 hxe
  · intro pre post e'' hsplit hpost hpre
    obtain ⟨g1, -, -, -⟩ := runElim_spec ts hnd pre [] e'' hpre
    rw [hact0] at g1
    have : 1 ≤ post.length := List.length_pos.mpr hpost
    have : draws.length = pre.length + post.length := by rw [hsplit]; simp
    omega
  · intro s
    refine ⟨?_, ?_, ?_⟩
    · intro h
      simp only [elimFire]
      rw [if_pos h]
      exact ⟨rfl, rfl⟩
    · intro h
      simp only [elimFire]
      rw [if_neg (by omega), if_pos h]
      simp only [startStabilityTimer]
      refine ⟨?_, ?_, ?_, ?_, ?_⟩ <;> first | rfl | exact trivial
    · intro h
      simp only [elimFire]
      rw [if_neg (by omega), if_neg (by omega)]
      simp only [resetAll]
      refine ⟨?_, ?_⟩ <;> first | rfl | exact trivial

/-- C3 (witness): the session over touches 1, 2, 3 drawing index 0 twice
eliminates ids 1 then 2, leaving 3 as the survivor. -/
theorem elimination_termination_witness :
    (activeIds [(1, touchA), (2, touchB), (3, touchC)] [some 1, some 2]).length = 1 ∧
    ([some 1, some 2] : List (Option Nat)).length =
      ([(1, touchA), (2, touchB), (3, touchC)] : TouchMap).length - 1 ∧
    (∀ x, x ∈ touchKeys [(1, touchA), (2, touchB), (3, touchC)] ↔
      (some x ∈ ([some 1, some 2] : List (Option Nat)) ∨
        x ∈ activeIds [(1, touchA), (2, touchB), (3, touchC)] [some 1, some 2])) ∧
    (∀ x, some x ∈ ([some 1, some 2] : List (Option Nat)) →
      x ∉ activeIds [(1, touchA), (2, touchB), (3, touchC)] [some 1, some 2]) ∧
    ([some 1, some 2] : List (Option Nat)).Nodup ∧
    (∀ pre post e'', ([0, 0] : List Nat) = pre ++ post → post ≠ [] →
      runElim [(1, touchA), (2, touchB), (3, touchC)] [] pre = some e'' →
      2 ≤ (activeIds [(1, touchA), (2, touchB), (3, touchC)] e'').length) ∧
    (∀ s : AppState,
      ((activeIds s.touches (elimAdd s.eliminated s.winnerId)).length = 1 →
        (elimFire s).phase = Phase.chosen ∧
        (elimFire s).winnerId =
          (activeIds s.touches (elimAdd s.eliminated s.winnerId)).head?) ∧
      (2 ≤ (activeIds s.touches (elimAdd s.eliminated s.winnerId)).length →
        (elimFire s).phase = Phase.stabilizing ∧ (elimFire s).winnerId = none ∧
        (elimFire s).stabilityPending = true ∧ (elimFire s).touches = s.touches ∧
        (elimFire s).eliminated = elimAdd s.eliminated s.winnerId) ∧
      ((activeIds s.touches (elimAdd s.eliminated s.winnerId)).length = 0 →
        (elimFire s).phase = Phase.waiting ∧ (elimFire s).touches = [])) :=
  elimination_termination [(1, touchA), (2, touchB), (3, touchC)] [0, 0] [some 1, some 2]
    (by decide) (by decide) (by decide) (by decide)

end Chooser

